import Mathlib

/-!
Verification development for the lunar-landing repository.

Part one embeds the ETL pipeline of `etl_dreams_v2.py`: the `shorten`
helper, the Raw Report record shape produced by the collectors, the
dedup-by-text-hash step of `main`, the symbol matcher
(`extract_symbol_candidates` / `group_by_symbol`), the synthesizer
(`llm_paraphrase` with `pick_contexts`), the curated-entry construction,
sorting and the two output writes.  Part two embeds the lunar endpoint of
`backend/app/main.py` (`moon_age`, `lunar_day`, `phase_key_from_age`,
`compute_lunar_day` with its static tables).

Modelling conventions: Python strings are Lean `String`/`List Char`;
Python floats are embedded as exact rationals `ℚ`; Python's built-in
`hash` on tuples is modelled as the tuple itself (an injective
idealisation); dictionary indexing that can raise `KeyError` is modelled
with `Option`-returning lookups; the network, the filesystem and the
generative-text provider are modelled as explicit parameters/oracles.
-/

/-- Python's regex whitespace class as matched by `re.sub(r'\s+', ' ', s)`
and stripped by `str.strip()`, restricted to the ASCII whitespace
characters (space, tab, newline, carriage return, vertical tab, form
feed). -/
def isPySpace (c : Char) : Bool :=
  c = ' ' || c = '\t' || c = '\n' || c = '\r' || c = '\x0b' || c = '\x0c'

/-- Effect of `re.sub(r'\s+', ' ', s).strip()` on a character list: every
maximal whitespace run collapses to one space and outer whitespace is
removed (equivalently, split on whitespace and rejoin with single
spaces). -/
def normSpace (l : List Char) : List Char :=
  List.intercalate [' '] ((l.splitOnP isPySpace).filter (fun w => w ≠ []))

/-- Character-list form of `shorten(s, n)` from `etl_dreams_v2.py`:
collapse whitespace, keep the text whole when its length is at most `n`,
otherwise keep the first `n - 1` characters and append the ellipsis
character (`s[:n-1]+"…"`). -/
def shortenL (l : List Char) (n : Nat) : List Char :=
  let s := normSpace l
  if s.length ≤ n then s else s.take (n - 1) ++ ['…']

/-- The `shorten` helper of `etl_dreams_v2.py` (the source's default bound
is 220; every call relevant here passes the bound explicitly). -/
def shorten (s : String) (n : Nat) : String :=
  ⟨shortenL s.data n⟩

/-- Python's `str.strip()` (whitespace from both ends). -/
def pyStrip (s : String) : String :=
  ⟨((s.data.dropWhile isPySpace).reverse.dropWhile isPySpace).reverse⟩

/-- A Raw Report: the common record shape built by every collector in
`etl_dreams_v2.py` (fields `source`, `id`, `url`, `title`, `text`,
`date`, `tags`, `license`).  Provider ids that are Python ints are
rendered as strings. -/
structure Report where
  source : String
  id : String
  url : String
  title : String
  text : String
  date : String
  tags : List String
  license : String
deriving DecidableEq

/-- The user-facing title field built by `collect_rss`:
`shorten(e.get('title','RSS post'), 120)`. -/
def rssTitle (title : String) : String := shorten title 120

/-- The dedup key computed in `main`:
`hash((r.get("source"), shorten(r.get("text",""), 160)))`, with Python's
tuple hash modelled as the tuple itself. -/
def dedupKey (r : Report) : String × String :=
  (r.source, shorten r.text 160)

/-- The deduplication loop of `main` over an accumulating set of already
seen keys: a report whose key was seen before is dropped, otherwise it is
kept and its key recorded (Python dict insertion-order semantics). -/
def dedupAux (seen : List (String × String)) : List Report → List Report
  | [] => []
  | r :: rest =>
    if dedupKey r ∈ seen then dedupAux seen rest
    else r :: dedupAux (dedupKey r :: seen) rest

/-- The "deduplicate by text hash" step of `main`: first occurrence per
`dedupKey` wins, input order otherwise preserved. -/
def dedup (raws : List Report) : List Report := dedupAux [] raws

/-- The key described by the specification's words for the Deduplicator:
the pair of the source kind and the fixed 160-character prefix of the
report's raw text.  Stated only to compare with `dedupKey`, which is what
the source computes. -/
def claimKey (r : Report) : String × String :=
  (r.source, ⟨r.text.data.take 160⟩)

/-- The fixed symbol vocabulary `BASE_SYMBOLS` of `etl_dreams_v2.py`. -/
def BASE_SYMBOLS : List String :=
  ["вода", "огонь", "падение", "полёт", "погоня", "дверь", "окно", "лестница",
   "машина", "поезд", "самолёт", "ребёнок", "родители", "дом", "подвал",
   "зеркало", "собака", "кошка", "змея", "рыба", "птица", "кровь", "болезнь",
   "кольцо", "деньги"]

/-- Scan of rapidfuzz `process.extractOne` over the remaining choices,
carrying the current best `(choice, score)` pair and replacing it only on
a strictly greater score (so ties keep the earlier choice). -/
def extractOneAux (scorer : String → String → Nat) (query : String)
    (best : String × Nat) : List String → String × Nat
  | [] => best
  | c :: cs =>
    extractOneAux scorer query
      (if best.2 < scorer query c then (c, scorer query c) else best) cs

/-- rapidfuzz `process.extractOne(query, choices, scorer=...)`, with the
scorer (in the source, `fuzz.partial_ratio`) abstracted as an explicit
parameter: returns the first choice attaining the maximal score together
with that score, or `none` when there are no choices. -/
def extractOne (scorer : String → String → Nat) (query : String) :
    List String → Option (String × Nat)
  | [] => none
  | c :: cs => some (extractOneAux scorer query (c, scorer query c) cs)

/-- The `extract_symbol_candidates` function of `etl_dreams_v2.py`: the
best fuzzy match over `BASE_SYMBOLS` is accepted only when its score
reaches 70, giving a one-element or empty candidate list. -/
def extract_symbol_candidates (scorer : String → String → Nat)
    (text : String) : List String :=
  match extractOne scorer text BASE_SYMBOLS with
  | none => []
  | some (s, score) => if 70 ≤ score then [s] else []

/-- Python `buckets.setdefault(s, []).append(r)` on an insertion-ordered
association list of buckets. -/
def bucketsAdd (b : List (String × List Report)) (s : String) (r : Report) :
    List (String × List Report) :=
  match b with
  | [] => [(s, [r])]
  | (k, rs) :: rest =>
    if k = s then (k, rs ++ [r]) :: rest else (k, rs) :: bucketsAdd rest s r

/-- The `group_by_symbol` function of `etl_dreams_v2.py`: every report is
appended to the bucket of each of its symbol candidates. -/
def group_by_symbol (scorer : String → String → Nat) (raws : List Report) :
    List (String × List Report) :=
  raws.foldl
    (fun b r =>
      (extract_symbol_candidates scorer r.text).foldl
        (fun b s => bucketsAdd b s r) b)
    []

/-- Python `str.lower()` restricted to the character ranges relevant to
`pick_contexts` (ASCII capitals, the Cyrillic range U+0410..U+042F with Ё
and the Ukrainian І Ї Ґ, and the accented Latin capitals whose lowercase
forms appear in the regex class); every other character is unchanged. -/
def pyLower (c : Char) : Char :=
  if 'A' ≤ c ∧ c ≤ 'Z' then Char.ofNat (c.toNat + 32)
  else if 'А' ≤ c ∧ c ≤ 'Я' then Char.ofNat (c.toNat + 32)
  else if c = 'Ё' then 'ё'
  else if c = 'І' then 'і'
  else if c = 'Ї' then 'ї'
  else if c = 'Ґ' then 'ґ'
  else if c = 'É' then 'é'
  else if c = 'È' then 'è'
  else if c = 'Ç' then 'ç'
  else if c = 'À' then 'à'
  else if c = 'Ù' then 'ù'
  else if c = 'Ö' then 'ö'
  else if c = 'Ü' then 'ü'
  else if c = 'Ñ' then 'ñ'
  else c

/-- Membership in the `pick_contexts` regex class
`[a-zа-яёіїґéèçàùöüßñ\-]`, applied after lowercasing. -/
def isCtxChar (c : Char) : Bool :=
  ('a' ≤ c && c ≤ 'z') || ('а' ≤ c && c ≤ 'я') || c = 'ё' || c = 'і' ||
    c = 'ї' || c = 'ґ' || c = 'é' || c = 'è' || c = 'ç' || c = 'à' ||
    c = 'ù' || c = 'ö' || c = 'ü' || c = 'ß' || c = '-' || c = 'ñ'

/-- The words found by `re.findall(r'[...]{5,}', body)` on the lowercased
body: the maximal runs of class characters of length at least five. -/
def ctxWords (text : String) : List (List Char) :=
  (((text.data.map pyLower).splitOnP (fun c => !isCtxChar c)).filter
    (fun w => 5 ≤ w.length))

/-- Stable insertion by strictly greater count: the new word is placed
before the first element of strictly smaller count, so equal counts keep
their existing (first-seen) order, matching Python's stable
`sorted(freq.items(), key=lambda x: -x[1])`. -/
def insertByCount (cnt : List Char → Nat) (w : List Char) :
    List (List Char) → List (List Char)
  | [] => [w]
  | x :: xs => if cnt x < cnt w then w :: x :: xs else x :: insertByCount cnt w xs

/-- The `pick_contexts` function of `etl_dreams_v2.py`: the `k` most
frequent qualifying words of the lowercased body, ties broken by first
occurrence. -/
def pick_contexts (text : String) (k : Nat) : List String :=
  let ws := ctxWords text
  let uniq := ws.foldl (fun acc w => if w ∈ acc then acc else acc ++ [w]) []
  let sorted := uniq.foldl (fun acc w => insertByCount (fun x => ws.count x) w acc) []
  (sorted.take k).map (fun w => ⟨w⟩)

/-- The heuristic interpretation text returned by `llm_paraphrase` when no
API key is configured (the f-string template over the symbol and the
joined context words). -/
def heuristicText (symbol : String) (examples : List Report) : String :=
  let ctx := String.intercalate ", "
    (pick_contexts (String.intercalate " " (examples.map (fun e => e.text))) 3)
  "«" ++ symbol ++ "» (оценочно): чаще встречается вместе с темами " ++ ctx ++
    ". " ++ "Смотрите на эмоции при пробуждении, текущий контекст и повторяемость. " ++
    "Практика: дневник снов, короткая запись сразу после пробуждения, намерение перед сном."

/-- The degraded templated message returned by `llm_paraphrase` when the
generative call raises. -/
def fallbackText (symbol : String) : String :=
  "«" ++ symbol ++ "»: ориентир, а не прогноз. Фокус на эмоциях и контексте."

/-- Outcome oracle for the single outbound generative call of
`llm_paraphrase`: either the provider's response content or a raised
provider error. -/
inductive LLMOutcome where
  | ok (content : String)
  | err
deriving DecidableEq

/-- Python truthiness of the optional `OPENAI_API_KEY` environment
variable (`if not api_key`): unset or empty both count as not
configured. -/
def keyConfigured : Option String → Bool
  | none => false
  | some s => s ≠ ""

/-- The `llm_paraphrase` function of `etl_dreams_v2.py`, with the
environment key and the provider outcome as explicit parameters: without
a key it returns the heuristic template with confidence 0.8; with a key
it returns the stripped provider content with 0.9 on success, and the
fallback template with 0.6 on a provider error. -/
def llm_paraphrase (apiKey : Option String) (outcome : LLMOutcome)
    (symbol : String) (examples : List Report) : String × ℚ :=
  if keyConfigured apiKey then
    match outcome with
    | .ok content => (pyStrip content, 9/10)
    | .err => (fallbackText symbol, 6/10)
  else (heuristicText symbol examples, 8/10)

/-- Python's `round(x, 2)` on the exact rationals reached here (at the
multiples of 1/10 produced by `llm_paraphrase`, round-half-even and
round-half-away agree, so the rounding mode is immaterial). -/
def round2 (q : ℚ) : ℚ := (round (q * 100) : ℚ) / 100

/-- One provenance descriptor of a Curated Symbol Entry (`sources`
element: url, title, date, license). -/
structure SourceRef where
  url : String
  title : String
  date : String
  license : String
deriving DecidableEq

/-- A Curated Symbol Entry: the dict appended to `curated` in `main`. -/
structure Entry where
  symbol : String
  contexts : List String
  modern_interpretation : String
  tone : String
  lunar_links : List String
  sources : List SourceRef
  confidence : ℚ
  updated_at : String
  notes : String
deriving DecidableEq

/-- Construction of one Curated Symbol Entry in `main`'s loop over the
buckets; `today` is the module constant TODAY and `upd` the synthesis
timestamp `datetime.now(timezone.utc).isoformat()`. -/
def mkEntry (today upd : String) (apiKey : Option String)
    (outcome : LLMOutcome) (symbol : String) (reports : List Report) : Entry :=
  let ip := llm_paraphrase apiKey outcome symbol reports
  { symbol := symbol
    contexts := pick_contexts (String.intercalate " " (reports.map (fun r => r.text))) 3
    modern_interpretation := ip.1
    tone := "neutral"
    lunar_links := []
    sources := (reports.take 6).map (fun r => ⟨r.url, r.title, today, r.license⟩)
    confidence := round2 ip.2
    updated_at := upd
    notes := "Синтез на основе современных корпусов (оценочно). Классические сонники не использовались." }

/-- Python `curated.sort(key=lambda x: x["symbol"])`: a stable sort by the
symbol field under lexicographic string order. -/
def sortEntries (es : List Entry) : List Entry :=
  es.mergeSort (fun a b => decide (a.symbol ≤ b.symbol))

/-- The curated collection `main` emits for a merged raw-report list:
dedup, then bucket by symbol, then one synthesized entry per bucket, then
the sort by symbol.  The generative-provider outcome is an oracle per
symbol (`main` performs at most one call per bucket). -/
def curatedOf (scorer : String → String → Nat) (today upd : String)
    (apiKey : Option String) (llm : String → LLMOutcome)
    (raws : List Report) : List Entry :=
  sortEntries
    ((group_by_symbol scorer (dedup raws)).map
      (fun b => mkEntry today upd apiKey (llm b.1) b.1 b.2))

/-- JSON documents, at the value level produced by `json.dumps` /
consumed by `json.loads`. -/
inductive Json where
  | null
  | bool (b : Bool)
  | num (q : ℚ)
  | str (s : String)
  | arr (elems : List Json)
  | obj (fields : List (String × Json))

/-- Serialization of one provenance descriptor. -/
def srcToJson (s : SourceRef) : Json :=
  .obj [("url", .str s.url), ("title", .str s.title), ("date", .str s.date),
        ("license", .str s.license)]

/-- Serialization of one Curated Symbol Entry, field for field as the dict
built in `main`. -/
def entryToJson (e : Entry) : Json :=
  .obj [("symbol", .str e.symbol),
        ("contexts", .arr (e.contexts.map .str)),
        ("modern_interpretation", .str e.modern_interpretation),
        ("tone", .str e.tone),
        ("lunar_links", .arr (e.lunar_links.map .str)),
        ("sources", .arr (e.sources.map srcToJson)),
        ("confidence", .num e.confidence),
        ("updated_at", .str e.updated_at),
        ("notes", .str e.notes)]

/-- The content `write_jsonl` produces: one JSON document per line, the
file modelled as the list of per-line documents. -/
def write_jsonl (rows : List Entry) : List Json := rows.map entryToJson

/-- The content `write_json` produces: a single JSON document holding the
array of all records. -/
def write_json (rows : List Entry) : Json := .arr (rows.map entryToJson)

/-- Option-valued decoding of a JSON list, element by element. -/
def decodeList (g : Json → Option α) : List Json → Option (List α)
  | [] => some []
  | j :: js =>
    match g j, decodeList g js with
    | some a, some as => some (a :: as)
    | _, _ => none

/-- Decoder for a JSON string. -/
def strOfJson : Json → Option String
  | .str s => some s
  | _ => none

/-- Parser for one provenance descriptor. -/
def jsonToSrc : Json → Option SourceRef
  | .obj [("url", .str u), ("title", .str t), ("date", .str d), ("license", .str l)] =>
    some ⟨u, t, d, l⟩
  | _ => none

/-- Parser for one Curated Symbol Entry record. -/
def jsonToEntry : Json → Option Entry
  | .obj [("symbol", .str sy), ("contexts", .arr cx),
          ("modern_interpretation", .str mi), ("tone", .str tn),
          ("lunar_links", .arr ll), ("sources", .arr ss),
          ("confidence", .num cf), ("updated_at", .str ua),
          ("notes", .str no)] =>
    match decodeList strOfJson cx, decodeList strOfJson ll,
          decodeList jsonToSrc ss with
    | some cxs, some lls, some srcs => some ⟨sy, cxs, mi, tn, lls, srcs, cf, ua, no⟩
    | _, _, _ => none
  | _ => none

/-- Parsing the line-delimited output file: each line parsed as one
record. -/
def parseJsonlFile (lines : List Json) : Option (List Entry) :=
  decodeList jsonToEntry lines

/-- Parsing the single-array output file. -/
def parseJsonFile : Json → Option (List Entry)
  | .arr xs => decodeList jsonToEntry xs
  | _ => none

/-- Result of a pipeline run: `sys.exit(2)` on an empty merged raw set, or
the two written artifacts on success (the process then exits 0). -/
inductive RunResult where
  | fatal (exitCode : Nat)
  | success (jsonlFile : List Json) (jsonFile : Json)

/-- The process exit code of a run result. -/
def exitCode : RunResult → Nat
  | .fatal c => c
  | .success _ _ => 0

/-- The output files a run result leaves behind (`none` on the fatal
path, which exits before any write). -/
def outputFiles : RunResult → Option (List Json × Json)
  | .fatal _ => none
  | .success a b => some (a, b)

/-- `main` after the collection phase: the enabled providers' outputs are
merged in order; an empty merged set is fatal with exit code 2 and no
output, otherwise the curated collection is built and both artifacts
written. -/
def runPipeline (scorer : String → String → Nat) (today upd : String)
    (apiKey : Option String) (llm : String → LLMOutcome)
    (providerOutputs : List (List Report)) : RunResult :=
  let raw := providerOutputs.flatten
  if raw.isEmpty then .fatal 2
  else
    let curated := curatedOf scorer today upd apiKey llm raw
    .success (write_jsonl curated) (write_json curated)

/-- Field projection on a JSON object. -/
def jsonField (k : String) : Json → Option Json
  | .obj fs => fs.lookup k
  | _ => none

/-- Effect of `write_jsonl` on the target file, as the source performs it:
`open(path, "w")` truncates the target at once (the old content is gone
regardless of what follows), then the rows are written one line at a
time; `failAt = some k` models an I/O failure after `k` complete lines,
`none` a completed write. -/
def write_jsonl_effect (rows : List Entry) (failAt : Option Nat)
    (_oldContent : List Json) : List Json :=
  match failAt with
  | none => write_jsonl rows
  | some k => write_jsonl (rows.take k)

/-- A minimal concrete Curated Symbol Entry used in concrete runs. -/
def sampleEntry (sym : String) : Entry :=
  ⟨sym, [], "t", "neutral", [], [], 8/10, "u", "n"⟩

/-- The synodic month constant `SYNODIC = 29.530588853` of
`backend/app/main.py`, as an exact rational. -/
def SYNODIC : ℚ := 29530588853 / 1000000000

/-- The `PHASE_BREAKPOINTS` list of `backend/app/main.py`, as exact
rationals. -/
def PHASE_BREAKPOINTS : List ℚ :=
  [184566/100000, 553699/100000, 922831/100000, 1291963/100000,
   1661096/100000, 2030228/100000, 2399361/100000, 2768493/100000]

/-- Indexing into `PHASE_BREAKPOINTS` (all indices used by the source are
in range). -/
def bp (i : Nat) : ℚ := PHASE_BREAKPOINTS.getD i 0

/-- Python's `%` on numbers with a positive right operand:
`x - y * floor(x / y)` (the float arithmetic of the source embedded in
ℚ). -/
def pymod (x y : ℚ) : ℚ := x - y * ⌊x / y⌋

/-- The `moon_age` function of `backend/app/main.py`: the moment is given
as its signed distance in seconds from the reference new-moon instant
`REF = 2000-01-06T18:14Z` (that is, `(moment - REF).total_seconds()`),
and the age is `((days % SYNODIC) + SYNODIC) % SYNODIC` for
`days = seconds / 86400`. -/
def moon_age (secondsSinceRef : ℚ) : ℚ :=
  pymod (pymod (secondsSinceRef / 86400) SYNODIC + SYNODIC) SYNODIC

/-- The `lunar_day` function of `backend/app/main.py`:
`max(1, min(30, int(age // 1) + 1))`; for the nonnegative ages produced
by `moon_age`, `int(age // 1)` is the floor of the age. -/
def lunar_day (age : ℚ) : ℤ := max 1 (min 30 (⌊age⌋ + 1))

/-- The `phase_key_from_age` function of `backend/app/main.py`, branch for
branch. -/
def phase_key_from_age (age : ℚ) : String :=
  if age < bp 0 ∨ bp 7 ≤ age then "New"
  else if age < bp 1 then "WaxingCrescent"
  else if age < bp 2 then "FirstQuarter"
  else if age < bp 3 then "WaxingGibbous"
  else if age < bp 4 then "Full"
  else if age < bp 5 then "WaningGibbous"
  else if age < bp 6 then "LastQuarter"
  else if age < bp 7 then "WaningCrescent"
  else "New"

/-- The eight phase keys that occur in the source's tables. -/
def PHASE_KEYS : List String :=
  ["New", "WaxingCrescent", "FirstQuarter", "WaxingGibbous", "Full",
   "WaningGibbous", "LastQuarter", "WaningCrescent"]

/-- The `PHASE_LABELS` dict of `backend/app/main.py`, as an
insertion-ordered association list. -/
def PHASE_LABELS : List (String × List (String × String)) :=
  [("en",
    [("New", "New Moon"), ("WaxingCrescent", "Waxing Crescent"),
     ("FirstQuarter", "First Quarter"), ("WaxingGibbous", "Waxing Gibbous"),
     ("Full", "Full Moon"), ("WaningGibbous", "Waning Gibbous"),
     ("LastQuarter", "Last Quarter"), ("WaningCrescent", "Waning Crescent")]),
   ("ru",
    [("New", "Новолуние"), ("WaxingCrescent", "Растущий серп"),
     ("FirstQuarter", "Первая четверть"), ("WaxingGibbous", "Растущая выпуклая"),
     ("Full", "Полнолуние"), ("WaningGibbous", "Убывающая выпуклая"),
     ("LastQuarter", "Последняя четверть"), ("WaningCrescent", "Убывающий серп")])]

/-- One per-day table row of `DAY_TABLES` (description and
recommendation). -/
structure DayInfo where
  description : String
  recommendation : String
deriving DecidableEq

/-- The `DAY_TABLES` dict of `backend/app/main.py`: per locale, the table
for lunar days 1..30. -/
def DAY_TABLES : List (String × List (Int × DayInfo)) :=
  [("en",
    [(1, ⟨"No fixed category", "Set intentions; observe dreams as a compass."⟩),
     (2, ⟨"No separate label", "Generosity and planning support clarity."⟩),
     (3, ⟨"Testing, likely to materialize", "Overcoming obstacles hints at real-world trials."⟩),
     (4, ⟨"Cautionary and ancestral", "Family themes require attention."⟩),
     (5, ⟨"Neutral-positive", "Enjoy the favorable backdrop."⟩),
     (6, ⟨"Anticipatory and intuitive", "Journal subtle insights and emotional tone."⟩),
     (7, ⟨"Highly informative", "Document details; dreams tend to manifest."⟩),
     (8, ⟨"Prophetic about vocation", "Look for callings and long arcs."⟩),
     (9, ⟨"Tense day", "Ground yourself; keep notes practical."⟩),
     (10, ⟨"Mostly empty", "Observe but avoid overinterpretation."⟩),
     (11, ⟨"Marker for tomorrow", "Prepare for lunar day 12 to deepen."⟩),
     (12, ⟨"Bright and fulfilled", "Celebrate uplifting themes."⟩),
     (13, ⟨"Insights and pointers", "Follow the momentum into tomorrow."⟩),
     (14, ⟨"Emotional discharge", "Let unpleasant scenes release tension."⟩),
     (15, ⟨"Warnings", "Stay aware, but dreams lack strict type."⟩),
     (16, ⟨"Cleansing", "Support rituals of release."⟩),
     (17, ⟨"Neutral work-like", "Focus on routines without pressure."⟩),
     (18, ⟨"Energetic", "Good for power and light practices."⟩),
     (19, ⟨"Mostly non-informative", "Rest the analytic mind."⟩),
     (20, ⟨"Willpower focus", "Channel determination."⟩),
     (21, ⟨"Restorative", "Prioritize recovery and body care."⟩),
     (22, ⟨"Knowledge-bearing", "Expect practical guidance."⟩),
     (23, ⟨"Inverted", "Interpret dreams in reverse with context."⟩),
     (24, ⟨"Diagnostic", "Check-in with your body."⟩),
     (25, ⟨"Quiet", "Allow for silence and reset."⟩),
     (26, ⟨"Self-esteem", "Practice self-compassion."⟩),
     (27, ⟨"Intuitive-prophetic", "Capture insights today and tomorrow."⟩),
     (28, ⟨"Balanced", "Maintain harmonious routines."⟩),
     (29, ⟨"Liminal", "Honor transitions and rituals."⟩),
     (30, ⟨"Final prophetic", "Review lessons and celebrate growth."⟩)]),
   ("ru",
    [(1, ⟨"Без фиксированной категории", "Формулируйте намерения, трактуйте сны как ориентир."⟩),
     (2, ⟨"Без отдельной метки", "Щедрость и планирование поддерживают ясность."⟩),
     (3, ⟨"Проверочные", "Преодоление во сне → проверка в реальности."⟩),
     (4, ⟨"Предостерегающие, родовые", "Темы семьи требуют внимания."⟩),
     (5, ⟨"Нейтрально-позитивные", "Наслаждайтесь благоприятным фоном."⟩),
     (6, ⟨"Предвосхищающие", "Записывайте тонкие инсайты и эмоции."⟩),
     (7, ⟨"Высокоинформативные", "Фиксируйте детали — сны склонны сбываться."⟩),
     (8, ⟨"Пророческие про призвание", "Ищите подсказки о предназначении."⟩),
     (9, ⟨"Напряжённый день", "Заземляйтесь, делайте практичные заметки."⟩),
     (10, ⟨"В основном пустые", "Наблюдайте без излишней трактовки."⟩),
     (11, ⟨"Маркер завтрашнего дня", "Готовьтесь к насыщенному 12-му дню."⟩),
     (12, ⟨"Светлые и сбывающиеся", "Отмечайте вдохновляющие сюжеты."⟩),
     (13, ⟨"Инсайты", "Несите импульс в следующую ночь."⟩),
     (14, ⟨"Эмоциональная разрядка", "Позвольте напряжению выйти."⟩),
     (15, ⟨"Предостережения", "Внимательность без жёсткой классификации."⟩),
     (16, ⟨"Очистительные", "Поддержите практики освобождения."⟩),
     (17, ⟨"Нейтрально-рабочие", "Фокус на рутине без давления."⟩),
     (18, ⟨"Энергетические", "Подходят практики силы и света."⟩),
     (19, ⟨"Преимущественно неинформативные", "Дайте уму отдохнуть."⟩),
     (20, ⟨"Фокус на воле", "Направляйте решимость."⟩),
     (21, ⟨"Восстановительные", "Приоритет — забота о теле."⟩),
     (22, ⟨"Познавательные", "Ждите прикладных подсказок."⟩),
     (23, ⟨"Инверсионные", "Трактуйте с поправкой «наоборот»."⟩),
     (24, ⟨"Диагностические", "Прислушайтесь к телу."⟩),
     (25, ⟨"Тишина", "Позвольте паузе и перезагрузке."⟩),
     (26, ⟨"Про самооценку", "Практикуйте самосострадание."⟩),
     (27, ⟨"Интуитивно-пророческие", "Фиксируйте инсайты сегодня и завтра."⟩),
     (28, ⟨"Уравновешенные", "Поддерживайте гармоничные ритуалы."⟩),
     (29, ⟨"Пограничные", "Чтите переходы и обряды."⟩),
     (30, ⟨"Итоговые пророческие", "Подведите итоги, отметьте рост."⟩)])]

/-- The `SUPPORTED_LOCALES` tuple: the keys of `DAY_TABLES`. -/
def SUPPORTED_LOCALES : List String := DAY_TABLES.map Prod.fst

/-- The fields of the endpoint's `LunarResponse` that `compute_lunar_day`
fills from its lookups (the date echo and the constant `source` field are
omitted). -/
structure LunarResponseCore where
  lunar_day : Int
  phase : String
  phase_key : String
  description : String
  recommendation : String
  locale : String
deriving DecidableEq

/-- The `compute_lunar_day` function of `backend/app/main.py` after its
input validation: the local-noon moment is given already converted to UTC
as seconds since `REF` (the work of `get_local_noon`), and the dict
indexings `DAY_TABLES[locale_key]`, `table[day]` and
`PHASE_LABELS.get(locale_key, PHASE_LABELS['en'])[phase_key]` are
modelled as `Option` lookups, `none` standing for a raised
`KeyError`. -/
def compute_lunar_day (noonUtc : ℚ) (locale : String) : Option LunarResponseCore :=
  let localeKey := if locale ∈ SUPPORTED_LOCALES then locale else "en"
  let age := moon_age noonUtc
  let day := lunar_day age
  let phaseKey := phase_key_from_age age
  match (DAY_TABLES.lookup localeKey).bind (fun table => table.lookup day),
        ((PHASE_LABELS.lookup localeKey).getD
          ((PHASE_LABELS.lookup "en").getD [])).lookup phaseKey with
  | some dd, some pn =>
    some ⟨day, pn, phaseKey, dd.description, dd.recommendation, localeKey⟩
  | _, _ => none

/-- A concrete SDDb-like Raw Report whose normalized text is 161 'a'
characters. -/
def reportA : Report :=
  ⟨"sddb", "1", "https://sleepanddreamdatabase.org/", "SDDb report",
   ⟨List.replicate 161 'a'⟩, "2026-10-12", ["sddb"], "as-provided"⟩

/-- A report from the same provider as `reportA` whose text agrees with it
on the first 159 characters but differs within the first 160. -/
def reportB : Report :=
  ⟨"sddb", "2", "https://sleepanddreamdatabase.org/", "SDDb report",
   ⟨List.replicate 159 'a' ++ ['b', 'a']⟩, "2026-10-12", ["sddb"], "as-provided"⟩

/-- A report with exactly the text of `reportA` but a different provider
kind. -/
def reportC : Report :=
  ⟨"rss", "3", "https://example.org/feed", "RSS post",
   ⟨List.replicate 161 'a'⟩, "2026-10-12", ["rss"], "unknown"⟩

set_option maxRecDepth 8000

/-- C8, counterexample: for the 130-character title `"aaa…a"`, the
user-facing title built by `collect_rss` is NOT the first 120 characters
followed by an ellipsis marker (the source keeps only the first 119
characters before the marker). -/
theorem c8_title_counterexample :
    rssTitle ⟨List.replicate 130 'a'⟩ ≠
      ⟨(List.replicate 130 'a').take 120 ++ ['…']⟩ := by
  decide

/-- C8 (amended): for every report title in whitespace-normal form, a
130-character title yields a title field of the first 119 characters
followed by an ellipsis marker — 120 characters in total — and a title of
at most 120 characters is kept whole. -/
theorem c8_title_truncation (l : List Char) :
    (normSpace l = l → l.length = 130 →
      rssTitle ⟨l⟩ = ⟨l.take 119 ++ ['…']⟩ ∧ (rssTitle ⟨l⟩).length = 120) ∧
    (normSpace l = l → l.length ≤ 120 → rssTitle ⟨l⟩ = ⟨l⟩) := by
  constructor
  · intro hn hlen
    have h1 : rssTitle ⟨l⟩ = ⟨l.take 119 ++ ['…']⟩ := by
      simp only [rssTitle, shorten, shortenL]
      rw [hn, hlen]
      norm_num
    refine ⟨h1, ?_⟩
    rw [h1]
    show (l.take 119 ++ ['…']).length = 120
    rw [List.length_append, List.length_take, hlen]
    simp
  · intro hn hle
    simp only [rssTitle, shorten, shortenL]
    rw [hn, if_pos hle]

/-- C8, witness: the amended statement applied to the concrete
130-character title of `c8_title_counterexample`. -/
theorem c8_title_truncation_witness :
    normSpace (List.replicate 130 'a') = List.replicate 130 'a' ∧
    (List.replicate 130 'a').length = 130 ∧
    rssTitle ⟨List.replicate 130 'a'⟩ =
      ⟨(List.replicate 130 'a').take 119 ++ ['…']⟩ :=
  ⟨by decide, by decide,
   ((c8_title_truncation (List.replicate 130 'a')).1 (by decide) (by decide)).1⟩

/-- Membership in the dedup output: a report survives exactly when its key
is not among the already seen keys and it is the first element of the
input carrying its key. -/
theorem dedupAux_mem (r : Report) (l : List Report) : ∀ seen,
    r ∈ dedupAux seen l ↔
      dedupKey r ∉ seen ∧
        l.find? (fun x => decide (dedupKey x = dedupKey r)) = some r := by
  induction l with
  | nil =>
    intro seen
    simp [dedupAux]
  | cons x xs ih =>
    intro seen
    by_cases hk : dedupKey x = dedupKey r
    · have hfind : (x :: xs).find? (fun y => decide (dedupKey y = dedupKey r)) = some x :=
        List.find?_cons_of_pos _ (by simp [hk])
      by_cases hx : dedupKey x ∈ seen
      · rw [dedupAux, if_pos hx, hfind, ih seen]
        have hrseen : dedupKey r ∈ seen := hk ▸ hx
        constructor
        · rintro ⟨hns, -⟩; exact absurd hrseen hns
        · rintro ⟨hns, -⟩; exact absurd hrseen hns
      · rw [dedupAux, if_neg hx, hfind]
        constructor
        · intro hmem
          rcases List.mem_cons.mp hmem with h | h
          · subst h; exact ⟨fun hc => hx (hk ▸ hc), rfl⟩
          · have h2 := (ih (dedupKey x :: seen)).mp h
            exact absurd (by rw [← hk]; exact List.mem_cons_self _ _) h2.1
        · rintro ⟨hns, hx_eq⟩
          have hxr : x = r := by injection hx_eq
          simp [hxr]
    · have hfind : (x :: xs).find? (fun y => decide (dedupKey y = dedupKey r)) =
          xs.find? (fun y => decide (dedupKey y = dedupKey r)) :=
        List.find?_cons_of_neg _ (by simp [hk])
      have hxr : r ≠ x := fun h => hk (by rw [h])
      by_cases hx : dedupKey x ∈ seen
      · rw [dedupAux, if_pos hx, hfind, ih seen]
      · rw [dedupAux, if_neg hx, hfind]
        rw [List.mem_cons, ih (dedupKey x :: seen)]
        constructor
        · rintro (h | ⟨hns, hfind2⟩)
          · exact absurd h hxr
          · exact ⟨fun hc => hns (List.mem_cons_of_mem _ hc), hfind2⟩
        · rintro ⟨hns, hfind2⟩
          refine Or.inr ⟨?_, hfind2⟩
          intro hc
          rcases List.mem_cons.mp hc with h | h
          · exact hk h.symm
          · exact hns h

/-- C2, counterexample: `reportA` and `reportB` come from the same
provider and their texts already differ within the first 160 characters,
so under the claimed key — the pair of source kind and fixed
160-character text prefix — they would be two distinct records; the code
nevertheless collapses them, because its key uses `shorten(text, 160)`,
which keeps only the first 159 characters before the ellipsis. -/
theorem c2_dedup_counterexample :
    claimKey reportA ≠ claimKey reportB ∧
      dedup [reportA, reportB] = [reportA] := by
  constructor
  · decide
  · decide

/-- C2 (amended): the Deduplicator keys each report by the pair of its
source kind and `shorten(text, 160)` — the whitespace-normalized text
kept whole when it has at most 160 characters and otherwise its first 159
characters plus an ellipsis — retaining for every key exactly the
first-seen report of that key, and reports with identical text but
different source kinds never share a key. -/
theorem c2_dedup_key (raws : List Report) (r r1 r2 : Report) :
    (r ∈ dedup raws ↔
      raws.find? (fun x => decide (dedupKey x = dedupKey r)) = some r) ∧
    dedupKey r = (r.source, shorten r.text 160) ∧
    (r1.text = r2.text → r1.source ≠ r2.source → dedupKey r1 ≠ dedupKey r2) := by
  refine ⟨?_, rfl, ?_⟩
  · rw [dedup, dedupAux_mem]
    simp
  · intro _ hs hkeq
    exact hs (congrArg Prod.fst hkeq)

/-- C2, witness: two reports with literally identical text from providers
`sddb` and `rss` receive distinct dedup keys. -/
theorem c2_dedup_key_witness : dedupKey reportA ≠ dedupKey reportC :=
  (c2_dedup_key [] reportA reportA reportC).2.2 rfl (by decide)

/-- Keys of the reports retained by the dedup loop: none of them was in
the incoming seen set and they are pairwise distinct. -/
theorem dedupAux_keys (l : List Report) : ∀ seen,
    (∀ r ∈ dedupAux seen l, dedupKey r ∉ seen) ∧
      ((dedupAux seen l).map dedupKey).Nodup := by
  induction l with
  | nil =>
    intro seen
    simp [dedupAux]
  | cons x xs ih =>
    intro seen
    by_cases hx : dedupKey x ∈ seen
    · rw [dedupAux, if_pos hx]
      exact ih seen
    · rw [dedupAux, if_neg hx]
      obtain ⟨h1, h2⟩ := ih (dedupKey x :: seen)
      constructor
      · intro r hr
        rcases List.mem_cons.mp hr with h | h
        · subst h; exact hx
        · exact fun hc => (h1 r h) (List.mem_cons_of_mem _ hc)
      · simp only [List.map_cons, List.nodup_cons]
        refine ⟨?_, h2⟩
        intro hc
        rcases List.mem_map.mp hc with ⟨y, hy, hky⟩
        exact (h1 y hy) (by rw [hky]; exact List.mem_cons_self _ _)

/-- A list whose keys are pairwise distinct and disjoint from the seen set
passes through the dedup loop unchanged. -/
theorem dedupAux_fixed (l : List Report) : ∀ seen,
    (∀ r ∈ l, dedupKey r ∉ seen) → ((l.map dedupKey).Nodup) →
      dedupAux seen l = l := by
  induction l with
  | nil => intro seen _ _; rfl
  | cons x xs ih =>
    intro seen hseen hnd
    rw [List.map_cons, List.nodup_cons] at hnd
    rw [dedupAux, if_neg (hseen x (List.mem_cons_self _ _))]
    congr 1
    refine ih _ ?_ hnd.2
    intro r hr hc
    rcases List.mem_cons.mp hc with h | h
    · exact hnd.1 (h ▸ List.mem_map_of_mem dedupKey hr)
    · exact hseen r (List.mem_cons_of_mem _ hr) h

/-- C9: the Deduplicator is idempotent — applying the dedup step to its
own output returns that output unchanged (in particular the same keys and
the same representatives). -/
theorem c9_dedup_idempotent (raws : List Report) :
    dedup (dedup raws) = dedup raws := by
  show dedupAux [] (dedup raws) = dedup raws
  exact dedupAux_fixed (dedup raws) []
    (fun r _ hc => absurd hc (List.not_mem_nil _))
    (dedupAux_keys raws []).2

/-- The scan of `extractOne` keeps a pair that scores itself, never
decreases the best score, reaches at least every remaining choice's
score, and returns the incoming best or one of the remaining choices. -/
theorem extractOneAux_spec (scorer : String → String → Nat) (q : String) :
    ∀ (cs : List String) (best : String × Nat), best.2 = scorer q best.1 →
      (extractOneAux scorer q best cs = best ∨
        (extractOneAux scorer q best cs).1 ∈ cs) ∧
      (extractOneAux scorer q best cs).2 =
        scorer q (extractOneAux scorer q best cs).1 ∧
      best.2 ≤ (extractOneAux scorer q best cs).2 ∧
      ∀ c ∈ cs, scorer q c ≤ (extractOneAux scorer q best cs).2 := by
  intro cs
  induction cs with
  | nil =>
    intro best hb
    exact ⟨Or.inl rfl, hb, le_refl _, by simp⟩
  | cons c cs ih =>
    intro best hb
    simp only [extractOneAux]
    by_cases hlt : best.2 < scorer q c
    · rw [if_pos hlt]
      obtain ⟨hmem, heq, hle, hall⟩ := ih (c, scorer q c) rfl
      refine ⟨?_, heq, ?_, ?_⟩
      · rcases hmem with h | h
        · right; rw [h]; exact List.mem_cons_self _ _
        · right; exact List.mem_cons_of_mem _ h
      · exact le_of_lt (lt_of_lt_of_le hlt hle)
      · intro x hx
        rcases List.mem_cons.mp hx with h | h
        · subst h; exact hle
        · exact hall x h
    · rw [if_neg hlt]
      obtain ⟨hmem, heq, hle, hall⟩ := ih best hb
      refine ⟨?_, heq, hle, ?_⟩
      · rcases hmem with h | h
        · exact Or.inl h
        · exact Or.inr (List.mem_cons_of_mem _ h)
      · intro x hx
        rcases List.mem_cons.mp hx with h | h
        · subst h; exact le_trans (not_lt.mp hlt) hle
        · exact hall x h

/-- On a nonempty choice list, `extractOne` returns some choice whose
score is its own and is maximal over all choices. -/
theorem extractOne_spec (scorer : String → String → Nat) (q : String)
    (choices : List String) (hne : choices ≠ []) :
    ∃ s sc, extractOne scorer q choices = some (s, sc) ∧ s ∈ choices ∧
      sc = scorer q s ∧ ∀ c ∈ choices, scorer q c ≤ sc := by
  match choices, hne with
  | c :: cs, _ =>
    obtain ⟨hmem, heq, hle, hall⟩ := extractOneAux_spec scorer q cs (c, scorer q c) rfl
    refine ⟨(extractOneAux scorer q (c, scorer q c) cs).1,
            (extractOneAux scorer q (c, scorer q c) cs).2, rfl, ?_, heq, ?_⟩
    · rcases hmem with h | h
      · rw [h]; exact List.mem_cons_self _ _
      · exact List.mem_cons_of_mem _ h
    · intro x hx
      rcases List.mem_cons.mp hx with h | h
      · subst h; exact hle
      · exact hall x h

/-- Every accepted symbol candidate belongs to the fixed vocabulary. -/
theorem candidates_subset (scorer : String → String → Nat) (t : String) :
    ∀ s ∈ extract_symbol_candidates scorer t, s ∈ BASE_SYMBOLS := by
  intro s hs
  obtain ⟨best, score, hsome, hmem, -, -⟩ :=
    extractOne_spec scorer t BASE_SYMBOLS (by simp [BASE_SYMBOLS])
  rw [extract_symbol_candidates, hsome] at hs
  have hs2 : s ∈ (if 70 ≤ score then [best] else []) := hs
  by_cases h70 : 70 ≤ score
  · rw [if_pos h70] at hs2
    simp only [List.mem_singleton] at hs2
    subst hs2; exact hmem
  · rw [if_neg h70] at hs2
    exact absurd hs2 (List.not_mem_nil _)

/-- Any per-bucket property of symbol/report pairs is preserved by one
`setdefault`/`append` step, given it holds for the inserted pair. -/
theorem bucketsAdd_content (Q : String → Report → Prop) (s : String)
    (r : Report) (hr : Q s r) : ∀ (b : List (String × List Report)),
    (∀ p ∈ b, ∀ x ∈ p.2, Q p.1 x) →
    ∀ p ∈ bucketsAdd b s r, ∀ x ∈ p.2, Q p.1 x := by
  intro b
  induction b with
  | nil =>
    intro _ p hp x hx
    simp only [bucketsAdd, List.mem_singleton] at hp
    subst hp
    simp only [List.mem_singleton] at hx
    subst hx
    exact hr
  | cons hd rest ih =>
    obtain ⟨kb, rsb⟩ := hd
    intro hb p hp x hx
    rw [bucketsAdd] at hp
    by_cases hk : kb = s
    · rw [if_pos hk] at hp
      rcases List.mem_cons.mp hp with h | h
      · subst h
        rcases List.mem_append.mp hx with h2 | h2
        · exact hb (kb, rsb) (List.mem_cons_self _ _) x h2
        · simp only [List.mem_singleton] at h2
          subst h2
          show Q kb x
          rw [hk]
          exact hr
      · exact hb p (List.mem_cons_of_mem _ h) x hx
    · rw [if_neg hk] at hp
      rcases List.mem_cons.mp hp with h | h
      · subst h
        exact hb (kb, rsb) (List.mem_cons_self _ _) x hx
      · exact ih (fun q hq => hb q (List.mem_cons_of_mem _ hq)) p h x hx

/-- Bucket-content preservation over the fold of one report's candidate
list. -/
theorem foldlAdd_content (Q : String → Report → Prop) (r : Report) :
    ∀ (cands : List String) (b : List (String × List Report)),
      (∀ p ∈ b, ∀ x ∈ p.2, Q p.1 x) → (∀ s ∈ cands, Q s r) →
      ∀ p ∈ cands.foldl (fun b s => bucketsAdd b s r) b, ∀ x ∈ p.2, Q p.1 x := by
  intro cands
  induction cands with
  | nil =>
    intro b hb _
    exact hb
  | cons c cs ih =>
    intro b hb hc
    rw [List.foldl_cons]
    exact ih (bucketsAdd b c r)
      (bucketsAdd_content Q c r (hc c (List.mem_cons_self _ _)) b hb)
      (fun s hs => hc s (List.mem_cons_of_mem _ hs))

/-- Every report in a bucket of `group_by_symbol` carries the bucket's
symbol among its candidates. -/
theorem group_content (scorer : String → String → Nat) (raws : List Report) :
    ∀ p ∈ group_by_symbol scorer raws, ∀ x ∈ p.2,
      p.1 ∈ extract_symbol_candidates scorer x.text := by
  have main : ∀ (l : List Report) (b : List (String × List Report)),
      (∀ p ∈ b, ∀ x ∈ p.2, p.1 ∈ extract_symbol_candidates scorer x.text) →
      ∀ p ∈ l.foldl
          (fun b r =>
            (extract_symbol_candidates scorer r.text).foldl
              (fun b s => bucketsAdd b s r) b) b,
        ∀ x ∈ p.2, p.1 ∈ extract_symbol_candidates scorer x.text := by
    intro l
    induction l with
    | nil => intro b hb; exact hb
    | cons r rest ih =>
      intro b hb
      rw [List.foldl_cons]
      exact ih _
        (foldlAdd_content (fun s x => s ∈ extract_symbol_candidates scorer x.text)
          r (extract_symbol_candidates scorer r.text) b hb (fun s hs => hs))
  exact main raws [] (by simp)

/-- C1: for every report, the Symbol Matcher computes the first
best-scoring vocabulary symbol, assigns it exactly when its score is at
least 70 and assigns nothing otherwise — so a below-threshold report
lands in no bucket — and never assigns more than one symbol. -/
theorem c1_symbol_matcher (scorer : String → String → Nat)
    (raws : List Report) (r : Report) :
    (extract_symbol_candidates scorer r.text).length ≤ 1 ∧
    ∃ best score,
      extractOne scorer r.text BASE_SYMBOLS = some (best, score) ∧
      best ∈ BASE_SYMBOLS ∧ score = scorer r.text best ∧
      (∀ c ∈ BASE_SYMBOLS, scorer r.text c ≤ score) ∧
      extract_symbol_candidates scorer r.text =
        (if 70 ≤ score then [best] else []) ∧
      (score < 70 →
        ∀ s rs, (s, rs) ∈ group_by_symbol scorer raws → r ∉ rs) := by
  obtain ⟨best, score, hsome, hmem, hsc, hall⟩ :=
    extractOne_spec scorer r.text BASE_SYMBOLS (by simp [BASE_SYMBOLS])
  have hcand : extract_symbol_candidates scorer r.text =
      (if 70 ≤ score then [best] else []) := by
    rw [extract_symbol_candidates, hsome]
  refine ⟨?_, best, score, hsome, hmem, hsc, hall, hcand, ?_⟩
  · rw [hcand]
    split <;> simp
  · intro hlt s rs hbucket hrin
    have h := group_content scorer raws (s, rs) hbucket r hrin
    rw [hcand, if_neg (not_le.mpr hlt)] at h
    exact List.not_mem_nil _ h

/-- C1, witness: with a scorer that gives every symbol score 0 on
`reportA`'s text, the matcher assigns nothing and `reportA` is in no
bucket of any run over `[reportA]`. -/
theorem c1_symbol_matcher_witness :
    ∃ best score,
      extractOne (fun _ _ => 0) reportA.text BASE_SYMBOLS = some (best, score) ∧
      score < 70 ∧
      extract_symbol_candidates (fun _ _ => 0) reportA.text = [] ∧
      ∀ s rs, (s, rs) ∈ group_by_symbol (fun _ _ => 0) [reportA] → reportA ∉ rs := by
  obtain ⟨-, best, score, hsome, -, hsc, -, hcand, hbuck⟩ :=
    c1_symbol_matcher (fun _ _ => 0) [reportA] reportA
  have hz : score = 0 := hsc
  refine ⟨best, score, hsome, by rw [hz]; norm_num, ?_, hbuck (by rw [hz]; norm_num)⟩
  rw [hcand, if_neg (by rw [hz]; norm_num)]

/-- Keys after one `setdefault` step: unchanged when the symbol is already
a bucket key, else extended by it at the end. -/
theorem bucketsAdd_keys (b : List (String × List Report)) (s : String) (r : Report) :
    (bucketsAdd b s r).map Prod.fst =
      if s ∈ b.map Prod.fst then b.map Prod.fst
      else b.map Prod.fst ++ [s] := by
  induction b with
  | nil => simp [bucketsAdd]
  | cons hd rest ih =>
    obtain ⟨kb, rsb⟩ := hd
    rw [bucketsAdd]
    by_cases hk : kb = s
    · rw [if_pos hk]
      simp [hk]
    · rw [if_neg hk]
      simp only [List.map_cons]
      rw [ih]
      by_cases hs : s ∈ rest.map Prod.fst
      · rw [if_pos hs, if_pos (List.mem_cons_of_mem _ hs)]
      · rw [if_neg hs, if_neg ?_]
        · simp
        · intro hmem
          rcases List.mem_cons.mp hmem with h | h
          · exact hk h.symm
          · exact hs h

/-- One `setdefault` step keeps bucket keys pairwise distinct. -/
theorem bucketsAdd_keys_nodup (b : List (String × List Report)) (s : String)
    (r : Report) (hnd : (b.map Prod.fst).Nodup) :
    ((bucketsAdd b s r).map Prod.fst).Nodup := by
  rw [bucketsAdd_keys]
  by_cases hs : s ∈ b.map Prod.fst
  · rw [if_pos hs]; exact hnd
  · rw [if_neg hs]
    rw [List.nodup_append]
    exact ⟨hnd, List.nodup_singleton s, by simpa using hs⟩

/-- One `setdefault` step introduces no key other than the inserted
symbol. -/
theorem bucketsAdd_keys_subset (b : List (String × List Report)) (s : String)
    (r : Report) : ∀ k ∈ (bucketsAdd b s r).map Prod.fst,
      k ∈ b.map Prod.fst ∨ k = s := by
  rw [bucketsAdd_keys]
  by_cases hs : s ∈ b.map Prod.fst
  · rw [if_pos hs]
    exact fun k hk => Or.inl hk
  · rw [if_neg hs]
    intro k hk
    rcases List.mem_append.mp hk with h | h
    · exact Or.inl h
    · simp only [List.mem_singleton] at h
      exact Or.inr h

/-- Folding one report's candidate list over the buckets keeps the keys
pairwise distinct and adds only candidates as new keys. -/
theorem foldlAdd_keys (r : Report) :
    ∀ (cands : List String) (b : List (String × List Report)),
      ((b.map Prod.fst).Nodup →
        ((cands.foldl (fun b s => bucketsAdd b s r) b).map Prod.fst).Nodup) ∧
      (∀ k ∈ (cands.foldl (fun b s => bucketsAdd b s r) b).map Prod.fst,
        k ∈ b.map Prod.fst ∨ k ∈ cands) := by
  intro cands
  induction cands with
  | nil =>
    intro b
    exact ⟨fun h => h, fun k hk => Or.inl hk⟩
  | cons c cs ih =>
    intro b
    rw [List.foldl_cons]
    obtain ⟨ih1, ih2⟩ := ih (bucketsAdd b c r)
    refine ⟨fun h => ih1 (bucketsAdd_keys_nodup b c r h), ?_⟩
    intro k hk
    rcases ih2 k hk with h | h
    · rcases bucketsAdd_keys_subset b c r k h with h2 | h2
      · exact Or.inl h2
      · exact Or.inr (h2 ▸ List.mem_cons_self _ _)
    · exact Or.inr (List.mem_cons_of_mem _ h)

/-- Keys of `group_by_symbol`: pairwise distinct and drawn from the fixed
vocabulary. -/
theorem group_keys (scorer : String → String → Nat) (raws : List Report) :
    ((group_by_symbol scorer raws).map Prod.fst).Nodup ∧
      ∀ k ∈ (group_by_symbol scorer raws).map Prod.fst, k ∈ BASE_SYMBOLS := by
  have main : ∀ (l : List Report) (b : List (String × List Report)),
      (b.map Prod.fst).Nodup →
      (∀ k ∈ b.map Prod.fst, k ∈ BASE_SYMBOLS) →
      ((l.foldl
          (fun b r =>
            (extract_symbol_candidates scorer r.text).foldl
              (fun b s => bucketsAdd b s r) b) b).map Prod.fst).Nodup ∧
        ∀ k ∈ (l.foldl
            (fun b r =>
              (extract_symbol_candidates scorer r.text).foldl
                (fun b s => bucketsAdd b s r) b) b).map Prod.fst,
          k ∈ BASE_SYMBOLS := by
    intro l
    induction l with
    | nil => intro b h1 h2; exact ⟨h1, h2⟩
    | cons r rest ih =>
      intro b h1 h2
      rw [List.foldl_cons]
      obtain ⟨f1, f2⟩ := foldlAdd_keys r (extract_symbol_candidates scorer r.text) b
      refine ih _ (f1 h1) ?_
      intro k hk
      rcases f2 k hk with h | h
      · exact h2 k h
      · exact candidates_subset scorer r.text k h
  exact main raws [] (by simp) (by simp)

/-- Sorting the curated entries by symbol yields a symbol sequence that is
non-decreasing under lexicographic string order. -/
theorem sortEntries_symbols_sorted (es : List Entry) :
    ((sortEntries es).map (fun e => e.symbol)).Sorted (· ≤ ·) := by
  have htrans : ∀ a b c : Entry, decide (a.symbol ≤ b.symbol) = true →
      decide (b.symbol ≤ c.symbol) = true →
      decide (a.symbol ≤ c.symbol) = true := by
    intro a b c h1 h2
    simp only [decide_eq_true_eq] at h1 h2 ⊢
    exact le_trans h1 h2
  have htotal : ∀ a b : Entry,
      (decide (a.symbol ≤ b.symbol) || decide (b.symbol ≤ a.symbol)) = true := by
    intro a b
    simp only [Bool.or_eq_true, decide_eq_true_eq]
    exact le_total a.symbol b.symbol
  have h := @List.sorted_mergeSort Entry
    (fun a b => decide (a.symbol ≤ b.symbol)) htrans htotal es
  show List.Pairwise (fun a b : String => a ≤ b) _
  rw [List.pairwise_map]
  exact h.imp (fun hab => by simpa using hab)

/-- C4: the emitted curated sequence is non-decreasing by symbol under
lexicographic order, has no duplicate symbol, and every symbol it
contains belongs to the fixed vocabulary. -/
theorem c4_output_invariants (scorer : String → String → Nat)
    (today upd : String) (apiKey : Option String) (llm : String → LLMOutcome)
    (raws : List Report) :
    ((curatedOf scorer today upd apiKey llm raws).map
        (fun e => e.symbol)).Sorted (· ≤ ·) ∧
    ((curatedOf scorer today upd apiKey llm raws).map
        (fun e => e.symbol)).Nodup ∧
    ∀ s ∈ (curatedOf scorer today upd apiKey llm raws).map
        (fun e => e.symbol), s ∈ BASE_SYMBOLS := by
  have hperm :
      (curatedOf scorer today upd apiKey llm raws).Perm
        ((group_by_symbol scorer (dedup raws)).map
          (fun b => mkEntry today upd apiKey (llm b.1) b.1 b.2)) :=
    List.mergeSort_perm _ _
  have hmapperm := hperm.map (fun e => e.symbol)
  have hpre :
      ((group_by_symbol scorer (dedup raws)).map
          (fun b => mkEntry today upd apiKey (llm b.1) b.1 b.2)).map
        (fun e => e.symbol) =
      (group_by_symbol scorer (dedup raws)).map Prod.fst := by
    rw [List.map_map]
    rfl
  rw [hpre] at hmapperm
  obtain ⟨hnd, hsub⟩ := group_keys scorer (dedup raws)
  refine ⟨sortEntries_symbols_sorted _, ?_, ?_⟩
  · exact (hmapperm.nodup_iff).mpr hnd
  · intro s hs
    exact hsub s (hmapperm.mem_iff.mp hs)

/-- The degraded provider-error template is never equal to the heuristic
template: after the shared `«symbol»` prefix, the two texts diverge at
the very next character. -/
theorem fallback_ne_heuristic (symbol : String) (examples : List Report) :
    fallbackText symbol ≠ heuristicText symbol examples := by
  intro h
  have h2 : (fallbackText symbol).data = (heuristicText symbol examples).data :=
    congrArg String.data h
  simp only [fallbackText, heuristicText, String.data_append,
    List.append_assoc] at h2
  have h4 := List.append_cancel_left (List.append_cancel_left h2)
  simp only [List.cons_append] at h4
  exact absurd (List.head_eq_of_cons_eq (List.tail_eq_of_cons_eq h4)) (by decide)

/-- C3: synthesis yields confidence exactly 0.8 on the heuristic path (no
generative credential configured), exactly 0.9 on generative success, and
exactly 0.6 on a provider error — in which case the text is the degraded
template, which differs from the heuristic path's output — and the
emitted `round(conf, 2)` equals the produced confidence and lies in
[0, 1]. -/
theorem c3_confidence (apiKey : Option String) (outcome : LLMOutcome)
    (symbol content : String) (examples : List Report) :
    llm_paraphrase none outcome symbol examples =
      (heuristicText symbol examples, 8/10) ∧
    (keyConfigured apiKey = true →
      llm_paraphrase apiKey (.ok content) symbol examples =
        (pyStrip content, 9/10)) ∧
    (keyConfigured apiKey = true →
      llm_paraphrase apiKey .err symbol examples =
        (fallbackText symbol, 6/10)) ∧
    fallbackText symbol ≠ heuristicText symbol examples ∧
    round2 (llm_paraphrase apiKey outcome symbol examples).2 =
      (llm_paraphrase apiKey outcome symbol examples).2 ∧
    0 ≤ (llm_paraphrase apiKey outcome symbol examples).2 ∧
    (llm_paraphrase apiKey outcome symbol examples).2 ≤ 1 := by
  refine ⟨rfl, ?_, ?_, fallback_ne_heuristic symbol examples, ?_⟩
  · intro h
    rw [llm_paraphrase.eq_def, if_pos h]
  · intro h
    rw [llm_paraphrase.eq_def, if_pos h]
  · rw [llm_paraphrase.eq_def]
    by_cases h : keyConfigured apiKey = true
    · rw [if_pos h]
      cases outcome with
      | ok c => exact ⟨by norm_num [round2], by norm_num, by norm_num⟩
      | err => exact ⟨by norm_num [round2], by norm_num, by norm_num⟩
    · rw [if_neg h]
      exact ⟨by norm_num [round2], by norm_num, by norm_num⟩

/-- C3, witness: with a configured key and an erroring provider, the
output on the symbol `"вода"` with no examples is the degraded template
with confidence 0.6, distinct from the heuristic text. -/
theorem c3_confidence_witness :
    llm_paraphrase (some "k") .err "вода" [] = (fallbackText "вода", 6/10) ∧
    fallbackText "вода" ≠ heuristicText "вода" [] := by
  have h := c3_confidence (some "k") .err "вода" "c" []
  exact ⟨h.2.2.1 rfl, h.2.2.2.1⟩

/-- C5: if every enabled provider contributes zero reports, the run
terminates with exit code 2 and produces no output file; every successful
run exits with code 0. -/
theorem c5_exit_behavior (scorer : String → String → Nat) (today upd : String)
    (apiKey : Option String) (llm : String → LLMOutcome)
    (providerOutputs : List (List Report)) :
    ((∀ l ∈ providerOutputs, l = []) →
      runPipeline scorer today upd apiKey llm providerOutputs =
        RunResult.fatal 2 ∧
      outputFiles (runPipeline scorer today upd apiKey llm providerOutputs) =
        none) ∧
    ∀ a b, runPipeline scorer today upd apiKey llm providerOutputs =
        RunResult.success a b →
      exitCode (runPipeline scorer today upd apiKey llm providerOutputs) = 0 := by
  constructor
  · intro hall
    have hflat : providerOutputs.flatten = [] :=
      List.flatten_eq_nil_iff.mpr hall
    have h : runPipeline scorer today upd apiKey llm providerOutputs =
        RunResult.fatal 2 := by
      rw [runPipeline]
      simp [hflat]
    refine ⟨h, ?_⟩
    rw [h]
    rfl
  · intro a b h
    rw [h]
    rfl

/-- C5, witness: two enabled providers that both return zero reports make
the run fatal with exit code 2 and no output files. -/
theorem c5_exit_behavior_witness :
    runPipeline (fun _ _ => 0) "2026-10-12" "u" none (fun _ => .err)
      [[], []] = RunResult.fatal 2 ∧
    outputFiles (runPipeline (fun _ _ => 0) "2026-10-12" "u" none
      (fun _ => .err) [[], []]) = none :=
  (c5_exit_behavior (fun _ _ => 0) "2026-10-12" "u" none (fun _ => .err)
    [[], []]).1 (by simp)

/-- Decoding a list that was produced by mapping a left-inverse-decodable
encoder recovers the original list. -/
theorem decodeList_map_inv {α : Type} (g : Json → Option α) (f : α → Json)
    (h : ∀ a, g (f a) = some a) : ∀ l : List α, decodeList g (l.map f) = some l := by
  intro l
  induction l with
  | nil => rfl
  | cons a as ih =>
    rw [List.map_cons, decodeList, h a, ih]

/-- Parsing one serialized Curated Symbol Entry recovers the entry. -/
theorem jsonToEntry_inv (e : Entry) : jsonToEntry (entryToJson e) = some e := by
  have h1 := decodeList_map_inv strOfJson Json.str (fun a => rfl) e.contexts
  have h2 := decodeList_map_inv strOfJson Json.str (fun a => rfl) e.lunar_links
  have h3 := decodeList_map_inv jsonToSrc srcToJson (fun a => rfl) e.sources
  rw [entryToJson, jsonToEntry, h1, h2, h3]

/-- C6: for every curated entry collection, the line-delimited file and
the single-array file parse back to exactly the same record list — the
same records with the same fields and the same values. -/
theorem c6_outputs_equivalent (rows : List Entry) :
    parseJsonlFile (write_jsonl rows) = some rows ∧
    parseJsonFile (write_json rows) = some rows := by
  have h : decodeList jsonToEntry (rows.map entryToJson) = some rows :=
    decodeList_map_inv jsonToEntry entryToJson jsonToEntry_inv rows
  exact ⟨h, h⟩

/-- C7 is violated by the code: `write_jsonl` opens the target itself in
write mode (truncating it) and then writes line by line, so an I/O
failure after the first of two records leaves the target holding exactly
one new record — neither the old content nor the complete new content;
no temporary file or atomic replacement is involved. -/
theorem c7_write_not_atomic :
    write_jsonl_effect [sampleEntry "a", sampleEntry "b"] (some 1)
        [entryToJson (sampleEntry "old")] =
      [entryToJson (sampleEntry "a")] ∧
    [entryToJson (sampleEntry "a")] ≠ [entryToJson (sampleEntry "old")] ∧
    [entryToJson (sampleEntry "a")] ≠
      write_jsonl [sampleEntry "a", sampleEntry "b"] := by
  refine ⟨rfl, ?_, ?_⟩
  · intro h
    have h2 : entryToJson (sampleEntry "a") = entryToJson (sampleEntry "old") :=
      List.head_eq_of_cons_eq h
    have h3 := congrArg (jsonField "symbol") h2
    simp [entryToJson, jsonField, sampleEntry, List.lookup] at h3
  · intro h
    have h2 := congrArg List.length h
    simp [write_jsonl] at h2

/-- Python's modulo as the divisor-scaled fractional part. -/
theorem pymod_eq_fract (x y : ℚ) (hy : y ≠ 0) :
    pymod x y = y * Int.fract (x / y) := by
  rw [pymod, Int.fract]
  field_simp

/-- Python's modulo is nonnegative for a positive divisor. -/
theorem pymod_nonneg (x : ℚ) {y : ℚ} (hy : 0 < y) : 0 ≤ pymod x y := by
  rw [pymod_eq_fract x y hy.ne']
  exact mul_nonneg hy.le (Int.fract_nonneg _)

/-- Python's modulo is strictly below a positive divisor. -/
theorem pymod_lt (x : ℚ) {y : ℚ} (hy : 0 < y) : pymod x y < y := by
  rw [pymod_eq_fract x y hy.ne']
  calc y * Int.fract (x / y) < y * 1 :=
        (mul_lt_mul_left hy).mpr (Int.fract_lt_one _)
    _ = y := mul_one y

/-- The synodic month constant is positive. -/
theorem SYNODIC_pos : (0 : ℚ) < SYNODIC := by norm_num [SYNODIC]

/-- The moon age is always within a synodic month. -/
theorem moon_age_range (t : ℚ) : 0 ≤ moon_age t ∧ moon_age t < SYNODIC :=
  ⟨pymod_nonneg _ SYNODIC_pos, pymod_lt _ SYNODIC_pos⟩

/-- The clamped lunar day is always between 1 and 30. -/
theorem lunar_day_range (age : ℚ) :
    1 ≤ lunar_day age ∧ lunar_day age ≤ 30 :=
  ⟨le_max_left 1 _, max_le (by norm_num) (min_le_left _ _)⟩

/-- The phase key is always one of the eight table keys. -/
theorem phase_key_mem (age : ℚ) : phase_key_from_age age ∈ PHASE_KEYS := by
  rw [phase_key_from_age]
  repeat' split
  all_goals decide

/-- Lookup of any lunar day in range succeeds in both locale tables. -/
theorem day_lookup_some (loc : String) (hloc : loc = "en" ∨ loc = "ru")
    (d : ℤ) (h1 : 1 ≤ d) (h30 : d ≤ 30) :
    ((DAY_TABLES.lookup loc).bind (fun t => t.lookup d)).isSome := by
  rcases hloc with rfl | rfl <;> (interval_cases d <;> decide)

/-- Lookup of any of the eight phase keys succeeds in the selected label
table. -/
theorem phase_lookup_some (loc : String) (hloc : loc = "en" ∨ loc = "ru")
    (pk : String) (hpk : pk ∈ PHASE_KEYS) :
    (((PHASE_LABELS.lookup loc).getD
      ((PHASE_LABELS.lookup "en").getD [])).lookup pk).isSome := by
  rcases hloc with rfl | rfl <;> (fin_cases hpk <;> decide)

/-- The endpoint core never raises: every lookup it performs is
defined. -/
theorem compute_lunar_day_isSome (noonUtc : ℚ) (locale : String) :
    (compute_lunar_day noonUtc locale).isSome := by
  rw [compute_lunar_day]
  have hloc : (if locale ∈ SUPPORTED_LOCALES then locale else "en") = "en" ∨
      (if locale ∈ SUPPORTED_LOCALES then locale else "en") = "ru" := by
    by_cases h : locale ∈ SUPPORTED_LOCALES
    · rw [if_pos h]
      have hS : SUPPORTED_LOCALES = ["en", "ru"] := rfl
      rw [hS] at h
      simpa using h
    · rw [if_neg h]
      exact Or.inl rfl
  obtain ⟨hd1, hd30⟩ := lunar_day_range (moon_age noonUtc)
  obtain ⟨dd, hdd⟩ := Option.isSome_iff_exists.mp
    (day_lookup_some _ hloc (lunar_day (moon_age noonUtc)) hd1 hd30)
  obtain ⟨pn, hpn⟩ := Option.isSome_iff_exists.mp
    (phase_lookup_some _ hloc (phase_key_from_age (moon_age noonUtc))
      (phase_key_mem (moon_age noonUtc)))
  rw [hdd, hpn]
  rfl

/-- C10: for every moment, `moon_age` lies in `[0, 29.530588853)`;
`lunar_day` maps every such age (indeed every age) to an integer in
`[1, 30]`; `phase_key_from_age` always returns one of the eight phase
keys; and for every moment and arbitrary locale string (unknown locales
falling back to `en`), every table lookup of `compute_lunar_day` is
defined, so the endpoint core never raises. -/
theorem c10_lunar_safety (noonUtc : ℚ) (locale : String) :
    (0 ≤ moon_age noonUtc ∧ moon_age noonUtc < SYNODIC) ∧
    (∀ age : ℚ, 0 ≤ age → age < SYNODIC →
      1 ≤ lunar_day age ∧ lunar_day age ≤ 30) ∧
    (∀ age : ℚ, phase_key_from_age age ∈ PHASE_KEYS) ∧
    (compute_lunar_day noonUtc locale).isSome :=
  ⟨moon_age_range noonUtc, fun age _ _ => lunar_day_range age,
   phase_key_mem, compute_lunar_day_isSome noonUtc locale⟩

/-- C10, witness: the safety statement instantiated at the reference
instant itself (age 0) and an unsupported locale string. -/
theorem c10_lunar_safety_witness :
    ((0:ℚ) ≤ moon_age 0 ∧ moon_age 0 < SYNODIC) ∧
    (1 ≤ lunar_day 0 ∧ lunar_day 0 ≤ 30) ∧
    (compute_lunar_day 0 "xx").isSome := by
  have h := c10_lunar_safety 0 "xx"
  exact ⟨h.1, h.2.1 0 (le_refl 0) (by norm_num [SYNODIC]), h.2.2.2⟩

/-- C4, witness: a concrete run over `[reportA]` with a scorer that always
returns 100 emits the single symbol `"вода"`, which the invariant places
in the fixed vocabulary. -/
theorem c4_output_invariants_witness :
    "вода" ∈ (curatedOf (fun _ _ => 100) "2026-10-12" "u" none
        (fun _ => .err) [reportA]).map (fun e => e.symbol) ∧
    "вода" ∈ BASE_SYMBOLS := by
  have hgroup : group_by_symbol (fun _ _ => 100) (dedup [reportA]) =
      [("вода", [reportA])] := by decide
  have hpre : "вода" ∈
      ((group_by_symbol (fun _ _ => 100) (dedup [reportA])).map
        (fun b => mkEntry "2026-10-12" "u" none
          ((fun _ => LLMOutcome.err) b.1) b.1 b.2)).map
        (fun e => e.symbol) := by
    rw [hgroup]
    exact List.mem_singleton.mpr rfl
  have hmem : "вода" ∈ (curatedOf (fun _ _ => 100) "2026-10-12" "u" none
      (fun _ => .err) [reportA]).map (fun e => e.symbol) := by
    show "вода" ∈ (List.mergeSort
        ((group_by_symbol (fun _ _ => 100) (dedup [reportA])).map
          (fun b => mkEntry "2026-10-12" "u" none
            ((fun _ => LLMOutcome.err) b.1) b.1 b.2))
        (fun a b => decide (a.symbol ≤ b.symbol))).map (fun e => e.symbol)
    exact ((List.mergeSort_perm _
      (fun a b : Entry => decide (a.symbol ≤ b.symbol))).map
        (fun e => e.symbol)).mem_iff.mpr hpre
  exact ⟨hmem,
    (c4_output_invariants (fun _ _ => 100) "2026-10-12" "u" none
      (fun _ => .err) [reportA]).2.2 "вода" hmem⟩
